import Mathlib

/-!
Shallow embedding of the cursor/selection engine of `src/main.py` (a
terminal line editor).  Lines are lists of characters, the buffer is a
list of lines, positions are `(row, column)` pairs of naturals.

Python-exception behaviour (`IndexError`, unpacking `None`) is modelled by
`Option`: a function returns `none` exactly when the Python code raises.
Python string slices `s[a:b]`, `s[a:]`, `s[:b]` are total and are modelled
by `List.take`/`List.drop`.
-/

abbrev Line := List Char

abbrev LineBuffer := List Line

abbrev Pos := Nat × Nat

/-- Python `str.isalnum` restricted to the ASCII alphabet (the model of
characters used throughout this development). -/
def isalnum (c : Char) : Bool := c.isAlphanum

/-- The whitespace characters of Python's `str.strip` / `str.isspace`. -/
def pyIsSpace (c : Char) : Bool :=
  c = ' ' || c = '\t' || c = '\n' || c = '\x0b' || c = '\x0c' || c = '\r'

/-- Python `str.lstrip()`. -/
def lstrip (l : Line) : Line := l.dropWhile pyIsSpace

/-- Python `str.rstrip()`. -/
def rstrip (l : Line) : Line := (l.reverse.dropWhile pyIsSpace).reverse

/-- Strict lexicographic comparison of two `(row, column)` pairs, as Python
compares tuples. -/
def pairLt (a b : Pos) : Bool := a.1 < b.1 || (a.1 = b.1 && a.2 < b.2)

/-- Python `min(a, b)` on positions (returns `a` on ties). -/
def pyMin (a b : Pos) : Pos := if pairLt b a then b else a

/-- Python `max(a, b)` on positions (returns `a` on ties). -/
def pyMax (a b : Pos) : Pos := if pairLt a b then b else a

/-- Python `text.split("\n")`: never returns the empty list; `""` gives
`[""]`. -/
def splitNl : List Char → List (List Char)
  | [] => [[]]
  | c :: rest =>
    match splitNl rest with
    | [] => [[]]
    | h :: t => if c = '\n' then [] :: h :: t else (c :: h) :: t

/-- Concatenation of rows, a `'\n'` after each row.  This is the shape of
the interior of a multi-row extraction (`lines[i] + "\n"` summed). -/
def joinRows : List Line → List Char
  | [] => []
  | l :: ls => l ++ '\n' :: joinRows ls

/-- `line.strip() != ""`: the row survives the whitespace-row cleanup of
`modify_selected_text`. -/
def keepRow (l : Line) : Bool := !(l.all pyIsSpace)

/-- `PAIR_CHARS` from the source, as a list in the order written there
(the Python object is a `set`; its iteration order is unspecified, and no
theorem below depends on the order). -/
def PAIR_CHARS : List (Char × Char) :=
  [('"', '"'), ('\'', '\''), ('(', ')'), ('[', ']'), ('<', '>'), ('\x7b', '\x7d')]

/-- Backward scan of `find_pair_boundaries`: indices `x, x-1, …, 0`, first
hit of `c`.  The caller guarantees `x < line.length` (otherwise the Python
code raises before this loop runs a full step). -/
def scanBack (line : Line) (c : Char) : Nat → Option Nat
  | 0 => if line.get? 0 = some c then some 0 else none
  | x + 1 => if line.get? (x + 1) = some c then some (x + 1) else scanBack line c x

/-- Forward scan of `find_pair_boundaries`: indices `x, x+1, …` while in
range, first hit of `c`. -/
def scanFwd (line : Line) (c : Char) (x : Nat) : Option Nat :=
  if h : x < line.length then
    if line.get ⟨x, h⟩ = c then some x else scanFwd line c (x + 1)
  else none
termination_by line.length - x

/-- The `for start_char, end_char in PAIR_CHARS` loop of
`find_pair_boundaries`. -/
def findPairAux (line : Line) (y x : Nat) : List (Char × Char) → Option (Pos × Pos)
  | [] => none
  | (a, b) :: rest =>
    match scanBack line a x, scanFwd line b x with
    | some i, some j => some ((y, i), (y, j + 1))
    | _, _ => findPairAux line y x rest

/-- `find_pair_boundaries(y, x, lines)`.  Outer `none` models the
`IndexError` raised by `lines[y]` (row out of range) or by the first
access `lines[y][cur_x]` of the backward loop when `x >= len(lines[y])`
(including the empty line, where the loop body runs once at `cur_x = 0`). -/
def find_pair_boundaries (y x : Nat) (lines : LineBuffer) :
    Option (Option (Pos × Pos)) :=
  match lines.get? y with
  | none => none
  | some line =>
    if x < line.length then some (findPairAux line y x PAIR_CHARS)
    else none

/-- The backward `while start_x > 0 and lines[y][start_x - 1].isalnum()`
loop of `find_word_boundaries`.  All indices probed are `< x`, hence in
range whenever the initial `x` is; `getD` never hits its default there. -/
def wordStart (line : Line) : Nat → Nat
  | 0 => 0
  | n + 1 => if isalnum (line.getD n ' ') then wordStart line n else n + 1

/-- The forward `while end_x < len(lines[y]) and lines[y][end_x].isalnum()`
loop of `find_word_boundaries`. -/
def wordEnd (line : Line) (ex : Nat) : Nat :=
  if h : ex < line.length then
    if isalnum (line.get ⟨ex, h⟩) then wordEnd line (ex + 1) else ex
  else ex
termination_by line.length - ex

/-- `find_word_boundaries(y, x, lines, current_selection)`.  `none` models
the `IndexError` of `lines[y]` (row out of range) or `lines[y][x]`
(column out of range, in particular the end-of-line position on a
non-empty line); the guard short-circuits exactly as the Python `or`
chain does. -/
def find_word_boundaries (y x : Nat) (lines : LineBuffer)
    (current_selection : Option (Pos × Pos)) : Option (Pos × Pos × Bool) :=
  if lines.isEmpty then some ((y, x), (y, x), false)
  else
    match lines.get? y with
    | none => none
    | some line =>
      if line.isEmpty then some ((y, x), (y, x), false)
      else
        match line.get? x with
        | none => none
        | some c =>
          if ¬ isalnum c then some ((y, x), (y, x), false)
          else
            let sx := wordStart line x
            let ex := wordEnd line x
            some ((y, sx), (y, ex),
              decide (current_selection = some ((y, sx), (y, ex))))

/-- `alt_n_logic(y, x, lines, selection_stage)`: the Expand-selection
stage cycle. -/
def alt_n_logic (y x : Nat) (lines : LineBuffer) (stage : Nat) :
    Option (Pos × Pos × Nat) :=
  if stage = 0 then
    (find_word_boundaries y x lines none).map (fun r => (r.1, r.2.1, 1))
  else if stage = 1 then
    match find_pair_boundaries y x lines with
    | none => none
    | some (some pr) => some (pr.1, pr.2, 2)
    | some none =>
      match lines.get? y with
      | none => none
      | some line => some ((y, 0), (y, line.length), 3)
  else if stage = 2 then
    match lines.get? y with
    | none => none
    | some line => some ((y, 0), (y, line.length), 3)
  else some ((y, x), (y, x), 0)

/-- `alt_p_logic(y, x, lines, selection_stage)`: the Shrink-selection
stage cycle.  A stage `>= 4` falls off the end of the Python function,
which returns `None` and makes the caller's tuple unpacking raise:
modelled `none`. -/
def alt_p_logic (y x : Nat) (lines : LineBuffer) (stage : Nat) :
    Option (Pos × Pos × Nat) :=
  if stage = 0 then some ((y, x), (y, x), 0)
  else if stage = 1 then some ((y, x), (y, x), 0)
  else if stage = 2 then
    (find_word_boundaries y x lines none).map (fun r => (r.1, r.2.1, 1))
  else if stage = 3 then
    match find_pair_boundaries y x lines with
    | none => none
    | some (some pr) => some (pr.1, pr.2, 2)
    | some none =>
      match lines.get? y with
      | none => none
      | some line => some ((y, 0), (y, line.length), 2)
  else none

/-- `extract_selected_text(start, end, lines)` for present endpoints (the
only way `modify_selected_text` calls it; the `None` guard there returns
`""` before reaching this code).  `none` models the `IndexError` on a row
index out of range. -/
def extract_selected_text (s e : Pos) (lines : LineBuffer) : Option (List Char) :=
  if s.1 = e.1 then
    (lines.get? s.1).map (fun l => (l.take e.2).drop s.2)
  else
    match lines.get? s.1, lines.get? e.1 with
    | some ls, some le =>
      some (ls.drop s.2 ++ '\n' ::
        (joinRows ((lines.drop (s.1 + 1)).take (e.1 - (s.1 + 1))) ++ le.take e.2))
    | _, _ => none

/-- The splice part of `modify_selected_text` (source lines 112–129):
merge the replacement text back into the buffer, given the normalised
span `(s, e)`.  Faithful to the source, including the quirk that the
single-replacement-row multi-row branch first writes
`prefix + modified_lines[0]` to the start row and then overwrites it
with `prefix + suffix`, discarding the replacement text. -/
def spliceSelection (lines : LineBuffer) (s e : Pos)
    (modified_text : List Char) : LineBuffer :=
  let modified_lines := splitNl modified_text
  if s.1 = e.1 then
    lines.set s.1
      ((lines.getD s.1 []).take s.2 ++ modified_text ++
        (lines.getD e.1 []).drop e.2)
  else
    let l1 := lines.set s.1
      ((lines.getD s.1 []).take s.2 ++ modified_lines.headD [])
    if 1 < modified_lines.length then
      let l2 := l1.set e.1
        (modified_lines.getLastD [] ++ (l1.getD e.1 []).drop e.2)
      l2.take (s.1 + 1) ++ (modified_lines.drop 1).dropLast ++ l2.drop e.1
    else
      let l2 := l1.set s.1
        ((l1.getD s.1 []).take s.2 ++ (l1.getD e.1 []).drop e.2)
      l2.take (s.1 + 1) ++ l2.drop (e.1 + 1)

/-- Source line 132: drop every row that is entirely whitespace. -/
def cleanupRows (l : LineBuffer) : LineBuffer := l.filter keepRow

/-- The cursor recomputation of `modify_selected_text` (source lines
134–141): clamp the span start against the cleaned buffer; `(0, 0)`
when the cleaned buffer is empty. -/
def recompute_cursor (cleaned : LineBuffer) (s : Pos) : Pos :=
  let ny := if cleaned.length ≤ s.1 then cleaned.length - 1 else s.1
  if cleaned.isEmpty then (0, 0)
  else (ny, min s.2 ((cleaned.getD ny []).length))

/-- `modify_selected_text(lines, selection_start, selection_end,
modify_function)`.  Endpoints normalised by Python tuple `min`/`max`;
splice, whitespace-only-row cleanup and cursor recomputation as in the
source — the buffer is never re-seeded when the cleanup empties it. -/
def modify_selected_text (lines : LineBuffer)
    (selection_start selection_end : Option Pos)
    (f : List Char → List Char) : Option (LineBuffer × Pos) :=
  match selection_start, selection_end with
  | none, _ => some (lines, (0, 0))
  | _, none => some (lines, (0, 0))
  | some p, some q =>
    let s := pyMin p q
    let e := pyMax p q
    (extract_selected_text s e lines).map (fun selected =>
      let cleaned := cleanupRows (spliceSelection lines s e (f selected))
      (cleaned, recompute_cursor cleaned s))

/-- First `while` loop of `move_to_previous_word`: skip backward over
non-word characters, crossing line boundaries upward.  The column is an
integer because the Python code drives it to `-1`.  `none` models an
`IndexError`. -/
def prevLoop1 (lines : LineBuffer) (y : Nat) (x : Int) : Option (Nat × Int) :=
  if 0 ≤ x then
    match lines.get? y with
    | none => none
    | some line =>
      match line.get? x.toNat with
      | none => none
      | some c =>
        if isalnum c then some (y, x)
        else if x - 1 < 0 then
          if 0 < y then
            prevLoop1 lines (y - 1) (((lines.getD (y - 1) []).length : Int) - 1)
          else some (y, x - 1)
        else prevLoop1 lines y (x - 1)
  else some (y, x)
termination_by (y, x.toNat)

/-- Second `while` loop of `move_to_previous_word`: walk back to the start
of the word containing the current position. -/
def prevLoop2 (lines : LineBuffer) (y : Nat) (x : Int) : Option (Nat × Int) :=
  if 0 < x then
    match lines.get? y with
    | none => none
    | some line =>
      match line.get? (x - 1).toNat with
      | none => none
      | some c => if isalnum c then prevLoop2 lines y (x - 1) else some (y, x)
  else some (y, x)
termination_by x.toNat

/-- The two consecutive `while` loops of `move_to_previous_word`. -/
def prevLoops (lines : LineBuffer) (y : Nat) (x : Int) : Option (Nat × Int) :=
  (prevLoop1 lines y x).bind (fun r => prevLoop2 lines r.1 r.2)

/-- `move_to_previous_word(y, x, lines)` (forward direction).  Returns the
row and the (possibly negative) column. -/
def move_to_previous_word (y x : Nat) (lines : LineBuffer) : Option (Nat × Int) :=
  if y = 0 ∧ x = 0 then some (0, 0)
  else
    let x1 : Int := if 0 < x then (x : Int) - 1 else (x : Int)
    if x1 = 0 ∧ 0 < y then
      match lines.get? (y - 1) with
      | none => none
      | some prev => prevLoops lines (y - 1) ((prev.length : Int) - 1)
    else prevLoops lines y x1

/-- The Delete/Backspace branch of the main loop (source lines 440–467):
the initial empty-buffer cursor reset, the merge-with-previous-line case,
the in-line character deletion case, the `ensureNonEmpty` re-seed, and the
trailing cursor validation of that branch. -/
def backspaceStep (lines : LineBuffer) (y x : Nat) :
    Option (LineBuffer × Nat × Nat) :=
  let y0 := if lines.isEmpty then 0 else y
  let x0 := if lines.isEmpty then 0 else x
  let step1 : Option (LineBuffer × Nat × Nat) :=
    if x0 = 0 ∧ 0 < y0 then
      match lines.get? (y0 - 1), lines.get? y0 with
      | some prev, some cur =>
        let merged := rstrip prev ++ lstrip cur
        let l1 := lines.set (y0 - 1) merged
        let l2 := l1.take y0 ++ l1.drop (y0 + 1)
        some (l2, y0 - 1, (l2.getD (y0 - 1) []).length)
      | _, _ => none
    else if 0 < x0 then
      match lines.get? y0 with
      | some cur =>
        some (lines.set y0 (cur.take (x0 - 1) ++ cur.drop x0), y0, x0 - 1)
      | none => none
    else some (lines, y0, x0)
  step1.map (fun r =>
    let l := r.1
    let l2 := if l.isEmpty then [([] : Line)] else l
    let y2 := if l.isEmpty then 0 else r.2.1
    let x2 := if l.isEmpty then 0 else r.2.2
    let y3 := min y2 (l2.length - 1)
    let x3 := min x2 (if l2.isEmpty then 0 else (l2.getD y3 []).length)
    (l2, y3, x3))

/-- The Ctrl-n / KEY_DOWN branch of the main loop (source lines 373–381)
followed by the bottom-of-loop cursor validation (lines 486–487).
`len(lines) - 1` is Python integer arithmetic; for the empty buffer both
it and the truncated `Nat` subtraction make the append fire. -/
def ctrlDownStep (lines : LineBuffer) (y x : Nat) : LineBuffer × Nat × Nat :=
  let lines1 := if lines.length - 1 ≤ y then lines ++ [([] : Line)] else lines
  let y1 := min (y + 1) (lines1.length - 1)
  let x1 := min x ((lines1.getD y1 []).length)
  let y2 := min y1 (lines1.length - 1)
  let x2 := min x1 (if lines1.isEmpty then 0 else (lines1.getD y2 []).length)
  (lines1, y2, x2)

/-- The Ctrl-p / KEY_UP branch of the main loop (source lines 382–392)
followed by the bottom-of-loop cursor validation (lines 486–487). -/
def ctrlUpStep (lines : LineBuffer) (y x : Nat) : LineBuffer × Nat × Nat :=
  let lines1 := if y = 0 then ([] : Line) :: lines else lines
  let y1 := if y = 0 then y else y - 1
  let x1 := min x ((lines1.getD y1 []).length)
  let y2 := min y1 (lines1.length - 1)
  let x2 := min x1 (if lines1.isEmpty then 0 else (lines1.getD y2 []).length)
  (lines1, y2, x2)

/-- The editor-session state handled by the main loop: buffer, cursor,
selection endpoints, the selecting flag and the selection stage. -/
structure EdState where
  lines : LineBuffer
  y : Nat
  x : Nat
  selStart : Option Pos
  selEnd : Option Pos
  isSelecting : Bool
  stage : Nat
deriving Repr, DecidableEq

/-- The Alt-n (Expand selection) handler of the main loop (source lines
314–318): run `alt_n_logic` at the current cursor and set `is_selecting`
to `True` unconditionally. -/
def altNStep (s : EdState) : Option EdState :=
  (alt_n_logic s.y s.x s.lines s.stage).map (fun r =>
    { s with selStart := some r.1, selEnd := some r.2.1, stage := r.2.2,
             isSelecting := true })

/-- The Alt-p (Shrink selection) handler of the main loop (source lines
319–323): run `alt_p_logic` and set `is_selecting := selection_stage != 0`. -/
def altPStep (s : EdState) : Option EdState :=
  (alt_p_logic s.y s.x s.lines s.stage).map (fun r =>
    { s with selStart := some r.1, selEnd := some r.2.1, stage := r.2.2,
             isSelecting := decide (r.2.2 ≠ 0) })

/-- The Alt-u (delete selection) handler of the main loop (source lines
337–344): `modify_selected_text` with the empty-string transform, then
the selection is cleared.  The cursor is overwritten by the returned
position. -/
def altUStep (s : EdState) : Option EdState :=
  (modify_selected_text s.lines s.selStart s.selEnd (fun _ => [])).map
    (fun r =>
      { s with lines := r.1, y := r.2.1, x := r.2.2,
               selStart := none, selEnd := none, isSelecting := false })

/-! ## Claim theorems -/

/-- C3 (code_bug evidence): at the valid end-of-line cursor position
`(0, 2)` of the buffer `["ab"]` — `column = length(line)` — the Expand
word-stage computation raises `IndexError` (modelled `none`) instead of
returning the empty span the spec prescribes. -/
theorem c3_word_stage_crashes_at_eol :
    find_word_boundaries 0 2 [['a', 'b']] none = none ∧
    alt_n_logic 0 2 [['a', 'b']] 0 = none ∧
    2 = (['a', 'b'] : Line).length := by
  refine ⟨rfl, rfl, rfl⟩

/-- C9: deleting the span `(0,6)–(0,11)` (the word `"world"`) from
`["hello world"]` with the empty-string transform yields `["hello "]`
with cursor `(0, 6)`. -/
theorem c9_delete_world :
    modify_selected_text ["hello world".toList] (some (0, 6)) (some (0, 11))
      (fun _ => []) = some (["hello ".toList], (0, 6)) := by
  rfl

/-- C1 (counterexample): deleting the whole content of `["a"]` leaves the
buffer with zero lines — it is not re-seeded with a single empty line. -/
theorem c1_counterexample :
    modify_selected_text [['a']] (some (0, 0)) (some (0, 1)) (fun _ => []) =
      some ([], (0, 0)) ∧ ([] : LineBuffer) ≠ [[]] := by
  exact ⟨rfl, by decide⟩

/-- C1 (amended): `modify_selected_text` may return an empty buffer; when
it does, the cursor is reset to `(0, 0)`.  No re-seeding occurs. -/
theorem c1_empty_result_cursor :
    ∀ (lines : LineBuffer) (ss se : Option Pos) (f : List Char → List Char)
      (r : LineBuffer × Pos),
      modify_selected_text lines ss se f = some r → r.1 = [] → r.2 = (0, 0) := by
  intro lines ss se f r h hempty
  cases ss with
  | none =>
    simp only [modify_selected_text, Option.some.injEq] at h
    subst h
    rfl
  | some p =>
    cases se with
    | none =>
      simp only [modify_selected_text, Option.some.injEq] at h
      subst h
      rfl
    | some q =>
      simp only [modify_selected_text, Option.map_eq_some'] at h
      obtain ⟨sel, _, h2⟩ := h
      rw [← h2] at hempty ⊢
      simp only at hempty ⊢
      rw [hempty]
      rfl

/-- C1 (witness). -/
theorem c1_witness :
    modify_selected_text [['a']] (some (0, 0)) (some (0, 1)) (fun _ => []) =
      some ([], (0, 0)) ∧ (([], (0, 0)) : LineBuffer × Pos).2 = (0, 0) :=
  ⟨rfl, c1_empty_result_cursor [['a']] (some (0, 0)) (some (0, 1)) (fun _ => [])
    ([], (0, 0)) rfl rfl⟩

/-- C2 (counterexample): with a missing selection endpoint, the Alt-u
handler leaves the buffer alone but moves the cursor from `(1, 1)` to
`(0, 0)` — the cursor is not left unchanged. -/
theorem c2_counterexample :
    altUStep ⟨[['a'], ['b']], 1, 1, none, some (0, 0), false, 0⟩ =
      some ⟨[['a'], ['b']], 0, 0, none, none, false, 0⟩ ∧
    ((0, 0) : Pos) ≠ (1, 1) := by
  exact ⟨rfl, by decide⟩

/-- C2 (amended): if either span endpoint is absent,
`modify_selected_text` returns the buffer unchanged together with the
default cursor `(0, 0)` — a no-op on the buffer, but the returned cursor
is `(0, 0)`, not the previous cursor. -/
theorem c2_missing_endpoint_noop :
    ∀ (lines : LineBuffer) (ss se : Option Pos) (f : List Char → List Char),
      ss = none ∨ se = none →
      modify_selected_text lines ss se f = some (lines, (0, 0)) := by
  intro lines ss se f h
  cases h with
  | inl h => subst h; cases se <;> rfl
  | inr h => subst h; cases ss <;> rfl

/-- C2 (witness). -/
theorem c2_witness :
    (none = (none : Option Pos) ∨ some ((0, 0) : Pos) = none) ∧
    modify_selected_text [['a'], ['b']] none (some (0, 0)) (fun _ => []) =
      some ([['a'], ['b']], (0, 0)) :=
  ⟨Or.inl rfl,
   c2_missing_endpoint_noop [['a'], ['b']] none (some (0, 0)) (fun _ => [])
     (Or.inl rfl)⟩

/-- C4 (counterexample): an Expand from the Line stage (stage 3) cycles
the stage back to 0 (`None`) but leaves `is_selecting = true`. -/
theorem c4_counterexample :
    altNStep ⟨[['a']], 0, 0, none, none, false, 3⟩ =
      some ⟨[['a']], 0, 0, some (0, 0), some (0, 0), true, 0⟩ ∧
    ¬ (true = decide ((0 : Nat) ≠ 0)) := by
  exact ⟨rfl, by decide⟩

/-- C4 (amended): after a Shrink command `is_selecting` equals
`stage ≠ 0`, but after an Expand command `is_selecting` is always `true`
— including when Expand from the Line stage cycles the stage back to
`None`. -/
theorem c4_selecting_flag :
    ∀ (s s' : EdState),
      (altNStep s = some s' → s'.isSelecting = true) ∧
      (altPStep s = some s' → s'.isSelecting = decide (s'.stage ≠ 0)) := by
  intro s s'
  constructor
  · intro h
    simp only [altNStep, Option.map_eq_some'] at h
    obtain ⟨r, _, h2⟩ := h
    rw [← h2]
  · intro h
    simp only [altPStep, Option.map_eq_some'] at h
    obtain ⟨r, _, h2⟩ := h
    rw [← h2]

/-- C4 (witness). -/
theorem c4_witness :
    altNStep ⟨[['a']], 0, 0, none, none, false, 3⟩ =
      some ⟨[['a']], 0, 0, some (0, 0), some (0, 0), true, 0⟩ ∧
    (⟨[['a']], 0, 0, some (0, 0), some (0, 0), true, 0⟩ : EdState).isSelecting
      = true ∧
    altPStep ⟨[['a']], 0, 0, none, none, true, 1⟩ =
      some ⟨[['a']], 0, 0, some (0, 0), some (0, 0), false, 0⟩ ∧
    (⟨[['a']], 0, 0, some (0, 0), some (0, 0), false, 0⟩ : EdState).isSelecting
      = decide ((⟨[['a']], 0, 0, some (0, 0), some (0, 0), false, 0⟩ :
          EdState).stage ≠ 0) :=
  ⟨rfl,
   (c4_selecting_flag ⟨[['a']], 0, 0, none, none, false, 3⟩
     ⟨[['a']], 0, 0, some (0, 0), some (0, 0), true, 0⟩).1 rfl,
   rfl,
   (c4_selecting_flag ⟨[['a']], 0, 0, none, none, true, 1⟩
     ⟨[['a']], 0, 0, some (0, 0), some (0, 0), false, 0⟩).2 rfl⟩

/-- C6 (counterexample): the identity transform over the zero-length span
`(0,0)–(0,0)` of the buffer `[" "]` removes the whitespace-only row: the
buffer is not returned unchanged. -/
theorem c6_counterexample :
    modify_selected_text [[' ']] (some (0, 0)) (some (0, 0)) (fun t => t) =
      some ([], (0, 0)) ∧ ([] : LineBuffer) ≠ [[' ']] := by
  exact ⟨rfl, by decide⟩

/-- If `l.get? n` hits, `getD` returns the same element. -/
theorem getD_of_getQ {α : Type} (l : List α) (n : Nat) (a d : α)
    (h : l.get? n = some a) : l.getD n d = a := by
  rw [List.getD_eq_getElem?_getD, ← List.get?_eq_getElem?, h]
  rfl

/-- Invariant of the second `move_to_previous_word` loop: the row is
unchanged and the column only moves left, never below `-1`. -/
theorem prevLoop2_spec (lines : LineBuffer) (y : Nat) (hy : y < lines.length) :
    ∀ (x : Int), -1 ≤ x → x < ((lines.getD y []).length : Int) →
      ∃ x', prevLoop2 lines y x = some (y, x') ∧ -1 ≤ x' ∧ x' ≤ x := by
  apply prevLoop2.induct lines y
    (fun x => -1 ≤ x → x < ((lines.getD y []).length : Int) →
      ∃ x', prevLoop2 lines y x = some (y, x') ∧ -1 ≤ x' ∧ x' ≤ x)
  · intro x hx hnone h1 h2
    rw [List.get?_eq_none] at hnone
    omega
  · intro x hx line hline hnone h1 h2
    rw [getD_of_getQ lines y line [] hline] at h2
    rw [List.get?_eq_none] at hnone
    omega
  · intro x hx line hline c hc halnum ih h1 h2
    rw [prevLoop2, if_pos hx, hline]
    simp only [hc, halnum, if_pos]
    obtain ⟨x', e, hb1, hb2⟩ := ih (by omega) (by omega)
    exact ⟨x', e, hb1, by omega⟩
  · intro x hx line hline c hc halnum h1 h2
    rw [prevLoop2, if_pos hx, hline]
    simp only [hc]
    rw [if_neg halnum]
    exact ⟨x, rfl, h1, le_refl x⟩
  · intro x hx h1 h2
    rw [prevLoop2, if_neg hx]
    exact ⟨x, rfl, h1, le_refl x⟩

/-- Invariant of the first `move_to_previous_word` loop: it never raises,
the resulting row is in range, and the resulting column lies in
`[-1, length of its row)`. -/
theorem prevLoop1_spec (lines : LineBuffer) :
    ∀ (y : Nat) (x : Int), y < lines.length → -1 ≤ x →
      x < ((lines.getD y []).length : Int) →
      ∃ y' x', prevLoop1 lines y x = some (y', x') ∧ y' < lines.length ∧
        -1 ≤ x' ∧ x' < ((lines.getD y' []).length : Int) := by
  apply prevLoop1.induct lines
    (fun y x => y < lines.length → -1 ≤ x →
      x < ((lines.getD y []).length : Int) →
      ∃ y' x', prevLoop1 lines y x = some (y', x') ∧ y' < lines.length ∧
        -1 ≤ x' ∧ x' < ((lines.getD y' []).length : Int))
  · intro y x hx0 hnone hy h1 h2
    rw [List.get?_eq_none] at hnone
    omega
  · intro y x hx0 line hline hnone hy h1 h2
    rw [getD_of_getQ lines y line [] hline] at h2
    rw [List.get?_eq_none] at hnone
    omega
  · intro y x hx0 line hline c hc halnum hy h1 h2
    refine ⟨y, x, ?_, hy, by omega, h2⟩
    rw [prevLoop1, if_pos hx0, hline]
    simp only [hc, halnum, if_pos]
  · intro y x hx0 line hline c hc halnum hneg hypos ih hy h1 h2
    rw [prevLoop1, if_pos hx0, hline]
    simp only [hc]
    rw [if_neg halnum, if_pos hneg, if_pos hypos]
    exact ih (by omega) (by omega) (by omega)
  · intro y x hx0 line hline c hc halnum hneg hynot hy h1 h2
    refine ⟨y, x - 1, ?_, hy, by omega, by omega⟩
    rw [prevLoop1, if_pos hx0, hline]
    simp only [hc]
    rw [if_neg halnum, if_pos hneg, if_neg hynot]
  · intro y x hx0 line hline c hc halnum hnneg ih hy h1 h2
    rw [prevLoop1, if_pos hx0, hline]
    simp only [hc]
    rw [if_neg halnum, if_neg hnneg]
    exact ih hy (by omega) (by omega)
  · intro y x hx0 hy h1 h2
    refine ⟨y, x, ?_, hy, h1, h2⟩
    rw [prevLoop1, if_neg hx0]

/-- The two loops chained: row stays in range, column ends in
`[-1, length of its row]`. -/
theorem prevLoops_spec (lines : LineBuffer) (y : Nat) (x : Int)
    (hy : y < lines.length) (hx1 : -1 ≤ x)
    (hx2 : x < ((lines.getD y []).length : Int)) :
    ∃ y' x', prevLoops lines y x = some (y', x') ∧ y' < lines.length ∧
      -1 ≤ x' ∧ x' ≤ ((lines.getD y' []).length : Int) := by
  obtain ⟨y1, x1, e1, ha, hb, hc⟩ := prevLoop1_spec lines y x hy hx1 hx2
  obtain ⟨x2, e2, hd, he⟩ := prevLoop2_spec lines y1 ha x1 hb hc
  refine ⟨y1, x2, ?_, ha, hd, by omega⟩
  rw [prevLoops, e1]
  simpa using e2

/-- C5 (counterexample): on the buffer `["!"]` at the valid end-of-line
position `(0, 1)`, `move_to_previous_word` returns column `-1`,
violating the invariant `0 <= column`. -/
theorem c5_counterexample :
    move_to_previous_word 0 1 [['!']] = some (0, -1) ∧ ¬ (0 ≤ (-1 : Int)) := by
  have e1 : prevLoop1 [['!']] 0 0 = some (0, -1) := by
    rw [prevLoop1]
    rfl
  have e2 : prevLoop2 [['!']] 0 (-1) = some (0, -1) := by
    rw [prevLoop2]
    rfl
  refine ⟨?_, by decide⟩
  rw [move_to_previous_word]
  norm_num
  rw [prevLoops, e1]
  simpa using e2

/-- C5 (amended): for every non-empty buffer and valid position,
`move_to_previous_word` returns (without raising) a position whose row is
in range and whose column lies in `[-1, length(row)]` — the lower bound
is `-1`, not `0`, and `-1` is attained (see the counterexample).  At
`(0, 0)` it returns `(0, 0)` unchanged. -/
theorem c5_prev_word_bounds :
    ∀ (lines : LineBuffer) (y x : Nat), y < lines.length →
      x ≤ (lines.getD y []).length →
      ∃ y' x', move_to_previous_word y x lines = some (y', x') ∧
        y' < lines.length ∧ -1 ≤ x' ∧
        x' ≤ ((lines.getD y' []).length : Int) ∧
        (y = 0 ∧ x = 0 → (y', x') = (0, 0)) := by
  intro lines y x hy hx
  by_cases h00 : y = 0 ∧ x = 0
  · refine ⟨0, 0, ?_, by omega, by omega, by omega, fun _ => rfl⟩
    rw [move_to_previous_word, if_pos h00]
  · have hxle : (x : Int) ≤ ((lines.getD y []).length : Int) := by
      exact_mod_cast hx
    by_cases hbr : ((if 0 < x then (x : Int) - 1 else (x : Int)) = 0 ∧ 0 < y)
    · have hy1 : y - 1 < lines.length := by omega
      obtain ⟨prev, hprev⟩ : ∃ p, lines.get? (y - 1) = some p := by
        cases hp : lines.get? (y - 1) with
        | none =>
          rw [List.get?_eq_none] at hp
          omega
        | some p => exact ⟨p, rfl⟩
      have hgd : lines.getD (y - 1) [] = prev := getD_of_getQ _ _ _ _ hprev
      obtain ⟨y', x', he, hb1, hb2, hb3⟩ :=
        prevLoops_spec lines (y - 1) ((prev.length : Int) - 1) hy1 (by omega)
          (by rw [hgd]; omega)
      refine ⟨y', x', ?_, hb1, hb2, hb3, fun hc => absurd hc h00⟩
      rw [move_to_previous_word, if_neg h00]
      simp only [if_pos hbr]
      rw [hprev]
      exact he
    · have hx0 : 0 < x := by
        by_contra hxc
        have hx00 : x = 0 := by omega
        refine hbr ⟨?_, by omega⟩
        subst hx00
        simp
      obtain ⟨y', x', he, hb1, hb2, hb3⟩ :=
        prevLoops_spec lines y ((x : Int) - 1) hy (by omega) (by omega)
      have hbr' : ¬ ((x : Int) - 1 = 0 ∧ 0 < y) := by
        rw [if_pos hx0] at hbr
        exact hbr
      refine ⟨y', x', ?_, hb1, hb2, hb3, fun hc => absurd hc h00⟩
      rw [move_to_previous_word, if_neg h00]
      simp only [if_pos hx0]
      rw [if_neg hbr']
      exact he

/-- C5 (witness). -/
theorem c5_witness :
    0 < ([['a']] : LineBuffer).length ∧
    1 ≤ (([['a']] : LineBuffer).getD 0 []).length ∧
    ∃ y' x', move_to_previous_word 0 1 [['a']] = some (y', x') ∧
      y' < ([['a']] : LineBuffer).length ∧ -1 ≤ x' ∧
      x' ≤ ((([['a']] : LineBuffer).getD y' []).length : Int) ∧
      (0 = 0 ∧ 1 = 0 → (y', x') = (0, 0)) :=
  ⟨by decide, by decide, by
    obtain ⟨y', x', h⟩ := c5_prev_word_bounds [['a']] 0 1 (by decide) (by decide)
    exact ⟨y', x', h⟩⟩

/-- C10: a move-down on the last row appends an empty line and the cursor
moves onto it (row = old length, column clamped to 0); a move-up on the
first row inserts an empty line at index 0 and the cursor stays on row 0,
now the new empty line.  In both results the buffer is the old one plus
exactly one empty line, pre-existing lines untouched. -/
theorem c10_edge_vertical_moves :
    ∀ (lines : LineBuffer) (y x : Nat), lines ≠ [] → y + 1 = lines.length →
      ctrlDownStep lines y x = (lines ++ [[]], lines.length, 0) ∧
      ctrlUpStep lines 0 x = ([] :: lines, 0, 0) := by
  intro lines y x hne hlen
  constructor
  · have hcond : lines.length - 1 ≤ y := by omega
    have hget : (lines ++ [[]]).getD lines.length [] = [] := by
      rw [List.getD_eq_getElem?_getD]
      simp
    simp only [ctrlDownStep, if_pos hcond]
    simp [List.length_append, hget, hlen]
  · have hget : (([] : Line) :: lines).getD 0 [] = [] := rfl
    simp [ctrlUpStep, hget]

/-- C10 (witness). -/
theorem c10_witness :
    ([['a']] : LineBuffer) ≠ [] ∧ 0 + 1 = ([['a']] : LineBuffer).length ∧
    ctrlDownStep [['a']] 0 5 = ([['a'], []], 1, 0) ∧
    ctrlUpStep [['a']] 0 5 = ([[], ['a']], 0, 0) :=
  ⟨by decide, rfl,
   (c10_edge_vertical_moves [['a']] 0 5 (by decide) rfl).1,
   (c10_edge_vertical_moves [['a']] 0 5 (by decide) rfl).2⟩

/-- Converse of `getD_of_getQ`: in range, `get?` returns the `getD` value. -/
theorem getQ_of_lt {α : Type} (l : List α) (n : Nat) (d : α) (h : n < l.length) :
    l.get? n = some (l.getD n d) := by
  rw [List.getD_eq_getElem?_getD, ← List.get?_eq_getElem?, List.get?_eq_get h]
  rfl

/-- Taking one past an updated index splits off the written element. -/
theorem set_take_succ {α : Type} :
    ∀ (l : List α) (n : Nat) (a : α), n < l.length →
      (l.set n a).take (n + 1) = l.take n ++ [a] := by
  intro l
  induction l with
  | nil =>
    intro n a h
    simp at h
  | cons b t ih =>
    intro n a h
    cases n with
    | zero => simp
    | succ m =>
      have h' : m < t.length := by simpa using h
      show b :: (t.set m a).take (m + 1) = (b :: t.take m) ++ [a]
      rw [ih m a h']
      rfl

/-- C8: Backspace at column 0 of row `y` with `y > 0` merges row `y` into
row `y - 1` as `rstrip(row y-1) ++ lstrip(row y)` (no inserted
separator), removes row `y`, and puts the cursor at the end of the merged
line. -/
theorem c8_backspace_merges :
    ∀ (lines : LineBuffer) (y : Nat), 0 < y → y < lines.length →
      backspaceStep lines y 0 =
        some (lines.take (y - 1) ++
            (rstrip (lines.getD (y - 1) []) ++ lstrip (lines.getD y [])) ::
              lines.drop (y + 1),
          y - 1,
          (rstrip (lines.getD (y - 1) []) ++ lstrip (lines.getD y [])).length) := by
  intro lines y hy0 hylen
  have hne : lines.isEmpty = false := by
    cases lines with
    | nil => simp at hylen
    | cons a t => rfl
  have hgp : lines.get? (y - 1) = some (lines.getD (y - 1) []) :=
    getQ_of_lt lines (y - 1) [] (by omega)
  have hgc : lines.get? y = some (lines.getD y []) := getQ_of_lt lines y [] hylen
  have hl1take : (lines.set (y - 1) (rstrip (lines.getD (y - 1) []) ++
      lstrip (lines.getD y []))).take y =
      lines.take (y - 1) ++
        [rstrip (lines.getD (y - 1) []) ++ lstrip (lines.getD y [])] := by
    have hy : y = (y - 1) + 1 := by omega
    rw [hy]
    exact set_take_succ lines (y - 1) _ (by omega)
  have hl1drop : (lines.set (y - 1) (rstrip (lines.getD (y - 1) []) ++
      lstrip (lines.getD y []))).drop (y + 1) = lines.drop (y + 1) := by
    rw [List.drop_set, if_pos (by omega)]
  have htl : (lines.take (y - 1)).length = y - 1 := by
    rw [List.length_take]
    omega
  have hgd2 : (lines.take (y - 1) ++
      (rstrip (lines.getD (y - 1) []) ++ lstrip (lines.getD y [])) ::
        lines.drop (y + 1)).getD (y - 1) [] =
      rstrip (lines.getD (y - 1) []) ++ lstrip (lines.getD y []) := by
    apply getD_of_getQ
    have h1 : (lines.take (y - 1)).length ≤ y - 1 := by rw [htl]
    rw [List.get?_append_right h1, htl, Nat.sub_self]
    rfl
  have hlen2 : (lines.take (y - 1) ++
      (rstrip (lines.getD (y - 1) []) ++ lstrip (lines.getD y [])) ::
        lines.drop (y + 1)).length = lines.length - 1 := by
    simp [List.length_take, List.length_drop]
    omega
  have hne2 : (lines.take (y - 1) ++
      (rstrip (lines.getD (y - 1) []) ++ lstrip (lines.getD y [])) ::
        lines.drop (y + 1)).isEmpty = false := by
    rw [Bool.eq_false_iff, Ne, List.isEmpty_iff]
    simp
  simp only [backspaceStep, hne, Bool.false_eq_true, if_false,
    hgp, hgc, hl1take, hl1drop]
  rw [List.append_assoc]
  simp only [List.singleton_append]
  rw [if_pos (show True ∧ 0 < y from ⟨trivial, hy0⟩), Option.map_some']
  simp only [hne2, Bool.false_eq_true, if_false, hlen2]
  rw [min_eq_left (by omega), hgd2, min_self]

/-- C8 (witness): merging `["  foo", "bar  "]` at row 1 yields
`["  foobar  "]` with the cursor at `(0, 10)`. -/
theorem c8_witness :
    0 < 1 ∧ 1 < (["  foo".toList, "bar  ".toList] : LineBuffer).length ∧
    backspaceStep ["  foo".toList, "bar  ".toList] 1 0 =
      some (["  foobar  ".toList], 0, 10) :=
  ⟨by decide, by decide,
   (c8_backspace_merges ["  foo".toList, "bar  ".toList] 1 (by decide)
     (by decide)).trans (by decide)⟩

/-- If some index `<= x` holds character `a`, the backward scan finds an
occurrence. -/
theorem scanBack_isSome (line : Line) (a : Char) :
    ∀ (x i : Nat), i ≤ x → line.get? i = some a → (scanBack line a x).isSome := by
  intro x
  induction x with
  | zero =>
    intro i hi hget
    have : i = 0 := by omega
    subst this
    rw [scanBack, if_pos hget]
    rfl
  | succ n ih =>
    intro i hi hget
    rw [scanBack]
    by_cases hx : line.get? (n + 1) = some a
    · rw [if_pos hx]
      rfl
    · rw [if_neg hx]
      rcases Nat.lt_or_ge i (n + 1) with hlt | hge
      · exact ih i (by omega) hget
      · have : i = n + 1 := by omega
        subst this
        exact absurd hget hx

/-- If some index `>= x` holds character `b`, the forward scan finds an
occurrence. -/
theorem scanFwd_isSome (line : Line) (b : Char) :
    ∀ (x : Nat), (∃ j, x ≤ j ∧ line.get? j = some b) → (scanFwd line b x).isSome := by
  apply scanFwd.induct line b (fun x => (∃ j, x ≤ j ∧ line.get? j = some b) →
    (scanFwd line b x).isSome)
  · intro x h hb hex
    rw [scanFwd]
    simp only [h, dif_pos, hb, if_pos]
    rfl
  · intro x h hb ih hex
    rw [scanFwd]
    simp only [h, dif_pos]
    rw [if_neg hb]
    apply ih
    obtain ⟨j, hj1, hj2⟩ := hex
    refine ⟨j, ?_, hj2⟩
    rcases Nat.lt_or_ge x j with hlt | hge
    · omega
    · have : j = x := by omega
      subst this
      rw [List.get?_eq_get h] at hj2
      exact absurd (Option.some.inj hj2) hb
  · intro x h hex
    obtain ⟨j, hj1, hj2⟩ := hex
    have : j < line.length := by
      by_contra hcon
      rw [List.get?_eq_none.mpr (by omega)] at hj2
      exact Option.noConfusion hj2
    omega

/-- If any candidate pair has both scans succeeding, the pair loop finds a
pair. -/
theorem findPairAux_isSome (line : Line) (y x : Nat) :
    ∀ (prs : List (Char × Char)),
      (∃ pr ∈ prs, (scanBack line pr.1 x).isSome ∧ (scanFwd line pr.2 x).isSome) →
      (findPairAux line y x prs).isSome := by
  intro prs
  induction prs with
  | nil =>
    intro h
    simp at h
  | cons hd tl ih =>
    intro h
    obtain ⟨pr, hmem, hs1, hs2⟩ := h
    obtain ⟨a, b⟩ := hd
    rw [findPairAux]
    cases hsb : scanBack line a x with
    | some i =>
      cases hsf : scanFwd line b x with
      | some j => rfl
      | none =>
        simp only []
        apply ih
        rcases List.mem_cons.mp hmem with heq | htl
        · exfalso
          rw [heq] at hs2
          simp only at hs2
          rw [hsf] at hs2
          exact Bool.noConfusion hs2
        · exact ⟨pr, htl, hs1, hs2⟩
    | none =>
      simp only []
      apply ih
      rcases List.mem_cons.mp hmem with heq | htl
      · exfalso
        rw [heq] at hs1
        simp only at hs1
        rw [hsb] at hs1
        exact Bool.noConfusion hs1
      · exact ⟨pr, htl, hs1, hs2⟩

/-- C7: from stage `None` (0) with the cursor on a word character lying
between a matching delimiter pair on its row, four consecutive Expand
calls at the same cursor pass through stages Word (1), PairOrBracket (2)
and Line (3) and return to `None` (0) with the zero-length span
`((y,x),(y,x))`. -/
theorem c7_expand_cycle :
    ∀ (lines : LineBuffer) (y x : Nat) (line : Line) (c : Char),
      lines.get? y = some line → line.get? x = some c → isalnum c = true →
      (∃ pr ∈ PAIR_CHARS, (∃ i, i ≤ x ∧ line.get? i = some pr.1) ∧
        (∃ j, x ≤ j ∧ line.get? j = some pr.2)) →
      (∃ w1 w2, alt_n_logic y x lines 0 = some (w1, w2, 1)) ∧
      (∃ p1 p2, alt_n_logic y x lines 1 = some (p1, p2, 2)) ∧
      alt_n_logic y x lines 2 = some ((y, 0), (y, line.length), 3) ∧
      alt_n_logic y x lines 3 = some ((y, x), (y, x), 0) := by
  intro lines y x line c hline hc halnum hpair
  have hne : lines.isEmpty = false := by
    cases lines with
    | nil => exact Option.noConfusion hline
    | cons a t => rfl
  have hlne : line.isEmpty = false := by
    cases line with
    | nil => exact Option.noConfusion hc
    | cons a t => rfl
  have hxlt : x < line.length := by
    by_contra hcon
    rw [List.get?_eq_none.mpr (by omega)] at hc
    exact Option.noConfusion hc
  have hfw : find_word_boundaries y x lines none =
      some ((y, wordStart line x), (y, wordEnd line x), false) := by
    rw [find_word_boundaries]
    simp only [hne, Bool.false_eq_true, if_false, hline, hlne, hc, halnum]
    simp
  have hfp : find_pair_boundaries y x lines =
      some (findPairAux line y x PAIR_CHARS) := by
    rw [find_pair_boundaries, hline]
    show (if x < line.length then some (findPairAux line y x PAIR_CHARS) else none) =
      some (findPairAux line y x PAIR_CHARS)
    rw [if_pos hxlt]
  have hsome : (findPairAux line y x PAIR_CHARS).isSome := by
    apply findPairAux_isSome
    obtain ⟨pr, hmem, ⟨i, hi1, hi2⟩, ⟨j, hj1, hj2⟩⟩ := hpair
    exact ⟨pr, hmem, scanBack_isSome line pr.1 x i hi1 hi2,
      scanFwd_isSome line pr.2 x ⟨j, hj1, hj2⟩⟩
  obtain ⟨pb, hpb⟩ := Option.isSome_iff_exists.mp hsome
  refine ⟨⟨(y, wordStart line x), (y, wordEnd line x), ?_⟩,
    ⟨pb.1, pb.2, ?_⟩, ?_, ?_⟩
  · rw [alt_n_logic, if_pos rfl, hfw]
    rfl
  · rw [alt_n_logic, if_neg (by omega), if_pos rfl, hfp, hpb]
  · rw [alt_n_logic, if_neg (by omega), if_neg (by omega), if_pos rfl, hline]
  · rfl

/-- C7 (witness): buffer `["(a)"]`, cursor `(0, 1)` on the word character
`'a'` inside the pair `( )`. -/
theorem c7_witness :
    List.get? ([['(', 'a', ')']] : LineBuffer) 0 = some ['(', 'a', ')'] ∧
    List.get? ['(', 'a', ')'] 1 = some 'a' ∧ isalnum 'a' = true ∧
    (∃ pr ∈ PAIR_CHARS, (∃ i, i ≤ 1 ∧ List.get? ['(', 'a', ')'] i = some pr.1) ∧
      (∃ j, 1 ≤ j ∧ List.get? ['(', 'a', ')'] j = some pr.2)) ∧
    ((∃ w1 w2, alt_n_logic 0 1 [['(', 'a', ')']] 0 = some (w1, w2, 1)) ∧
     (∃ p1 p2, alt_n_logic 0 1 [['(', 'a', ')']] 1 = some (p1, p2, 2)) ∧
     alt_n_logic 0 1 [['(', 'a', ')']] 2 = some ((0, 0), (0, 3), 3) ∧
     alt_n_logic 0 1 [['(', 'a', ')']] 3 = some ((0, 1), (0, 1), 0)) :=
  ⟨rfl, rfl, by decide,
   ⟨('(', ')'), by decide, ⟨0, by decide, rfl⟩, ⟨2, by decide, rfl⟩⟩,
   c7_expand_cycle [['(', 'a', ')']] 0 1 ['(', 'a', ')'] 'a' rfl rfl (by decide)
     ⟨('(', ')'), by decide, ⟨0, by decide, rfl⟩, ⟨2, by decide, rfl⟩⟩⟩

/-- `splitNl` never returns the empty list (Python `split` never does). -/
theorem splitNl_ne_nil : ∀ (t : List Char), splitNl t ≠ [] := by
  intro t
  cases t with
  | nil => simp [splitNl]
  | cons c rest =>
    rw [splitNl]
    cases splitNl rest with
    | nil => simp
    | cons h tt =>
      by_cases hc : c = '\n' <;> simp [hc]

/-- Splitting a newline-free string is the singleton. -/
theorem splitNl_no_newline : ∀ (a : List Char), '\n' ∉ a → splitNl a = [a] := by
  intro a
  induction a with
  | nil =>
    intro h
    rfl
  | cons c rest ih =>
    intro h
    have hc : c ≠ '\n' := fun he => h (he ▸ List.mem_cons_self c rest)
    rw [splitNl, ih (fun hm => h (List.mem_cons_of_mem c hm))]
    simp only [if_neg hc]

/-- Splitting past a leading newline-free chunk peels it off. -/
theorem splitNl_append_newline :
    ∀ (a b : List Char), '\n' ∉ a → splitNl (a ++ '\n' :: b) = a :: splitNl b := by
  intro a
  induction a with
  | nil =>
    intro b h
    show splitNl ('\n' :: b) = [] :: splitNl b
    rw [splitNl]
    cases hs : splitNl b with
    | nil => exact absurd hs (splitNl_ne_nil b)
    | cons hh tt => simp
  | cons c rest ih =>
    intro b h
    have hc : c ≠ '\n' := fun he => h (he ▸ List.mem_cons_self c rest)
    show splitNl (c :: (rest ++ '\n' :: b)) = (c :: rest) :: splitNl b
    rw [splitNl, ih b (fun hm => h (List.mem_cons_of_mem c hm))]
    simp only [if_neg hc]

/-- `splitNl` inverts `joinRows` on newline-free rows followed by a
newline-free tail. -/
theorem splitNl_joinRows :
    ∀ (rows : List Line) (t : List Char),
      (∀ r ∈ rows, '\n' ∉ r) → '\n' ∉ t →
      splitNl (joinRows rows ++ t) = rows ++ [t] := by
  intro rows
  induction rows with
  | nil =>
    intro t h ht
    rw [joinRows]
    simpa using splitNl_no_newline t ht
  | cons r rs ih =>
    intro t h ht
    rw [joinRows]
    have hshape : (r ++ '\n' :: joinRows rs) ++ t = r ++ '\n' :: (joinRows rs ++ t) := by
      rw [List.append_assoc]
      rfl
    rw [hshape, splitNl_append_newline r _ (h r (List.mem_cons_self r rs)),
      ih t (fun z hz => h z (List.mem_cons_of_mem r hz)) ht]
    rfl

/-- Writing back the element already stored is the identity. -/
theorem set_getQ_self {α : Type} : ∀ (l : List α) (n : Nat) (a : α),
    l.get? n = some a → l.set n a = l := by
  intro l
  induction l with
  | nil =>
    intro n a h
    exact Option.noConfusion h
  | cons b t ih =>
    intro n a h
    cases n with
    | zero =>
      have hba : b = a := Option.some.inj h
      rw [← hba]
      rfl
    | succ m =>
      show b :: t.set m a = b :: t
      rw [ih m a h]

/-- Last element of a cons-append-singleton. -/
theorem getLastD_cons_concat {α : Type} (a b d : α) (X : List α) :
    (a :: (X ++ [b])).getLastD d = b := by
  rw [List.getLastD_cons, List.getLastD_eq_getLast?, List.getLast?_concat]
  rfl

/-- Reassembling a list from a prefix, a middle slice and the matching
suffix. -/
theorem take_drop_splice {α : Type} (l : List α) (a k m : Nat) (h : a + k = m) :
    (l.take a ++ (l.drop a).take k) ++ l.drop m = l := by
  subst h
  rw [List.append_assoc, ← List.drop_drop, List.take_append_drop,
    List.take_append_drop]

/-- Reassembling a list from a prefix, an inner slice and the suffix. -/
theorem take_slice_drop {α : Type} (l : List α) (sx ex : Nat) (h : sx ≤ ex) :
    (l.take sx ++ (l.take ex).drop sx) ++ l.drop ex = l := by
  have h1 : (l.take ex).take sx = l.take sx := by
    rw [List.take_take, min_eq_left h]
  rw [← h1, List.take_append_drop, List.take_append_drop]

/-- The whitespace-row cleanup keeps a buffer in which every row has a
non-whitespace character. -/
theorem cleanupRows_eq_self (l : LineBuffer) (h : ∀ r ∈ l, keepRow r = true) :
    cleanupRows l = l :=
  List.filter_eq_self.mpr h

/-- Characterisation of the lexicographic tuple comparison. -/
theorem pairLt_iff (a b : Pos) :
    pairLt a b = true ↔ (a.1 < b.1 ∨ (a.1 = b.1 ∧ a.2 < b.2)) := by
  simp [pairLt]

/-- Python tuple `min`/`max` return the two arguments in some order. -/
theorem pyMinMax_cases (p q : Pos) :
    (pyMin p q = p ∧ pyMax p q = q) ∨ (pyMin p q = q ∧ pyMax p q = p) := by
  rw [pyMin, pyMax]
  by_cases h1 : pairLt q p = true
  · by_cases h2 : pairLt p q = true
    · exfalso
      rw [pairLt_iff] at h1 h2
      omega
    · rw [if_pos h1, if_neg h2]
      exact Or.inr ⟨rfl, rfl⟩
  · by_cases h2 : pairLt p q = true
    · rw [if_neg h1, if_pos h2]
      exact Or.inl ⟨rfl, rfl⟩
    · rw [if_neg h1, if_neg h2]
      rw [pairLt_iff] at h1 h2
      have hp : p = q := by
        obtain ⟨p1, p2⟩ := p
        obtain ⟨q1, q2⟩ := q
        simp only [Prod.mk.injEq]
        simp only at h1 h2
        omega
      exact Or.inl ⟨rfl, hp ▸ rfl⟩

/-- The normalised span is lexicographically ordered. -/
theorem pyMin_lex (p q : Pos) :
    (pyMin p q).1 < (pyMax p q).1 ∨
    ((pyMin p q).1 = (pyMax p q).1 ∧ (pyMin p q).2 ≤ (pyMax p q).2) := by
  rw [pyMin, pyMax]
  by_cases h1 : pairLt q p = true
  · by_cases h2 : pairLt p q = true
    · exfalso
      rw [pairLt_iff] at h1 h2
      omega
    · rw [if_pos h1, if_neg h2]
      rw [pairLt_iff] at h1
      omega
  · by_cases h2 : pairLt p q = true
    · rw [if_neg h1, if_pos h2]
      rw [pairLt_iff] at h2
      omega
    · rw [if_neg h1, if_neg h2]
      rw [pairLt_iff] at h1 h2
      omega

/-- Splicing the extracted slice of a single row back in place restores
the buffer. -/
theorem spliceSelection_id_single (lines : LineBuffer) (s e : Pos)
    (heq : s.1 = e.1) (hle : s.2 ≤ e.2) (ls : Line)
    (hget : lines.get? s.1 = some ls) :
    spliceSelection lines s e ((ls.take e.2).drop s.2) = lines := by
  have hgd : lines.getD s.1 [] = ls := getD_of_getQ lines s.1 ls [] hget
  rw [spliceSelection, if_pos heq, ← heq, hgd, take_slice_drop ls s.2 e.2 hle]
  exact set_getQ_self lines s.1 ls hget

/-- Splicing the extracted text of a multi-row span back unchanged
restores the buffer, provided the touched rows are newline-free. -/
theorem spliceSelection_id_multi (lines : LineBuffer) (s e : Pos)
    (hlt : s.1 < e.1) (ls le : Line)
    (hgs : lines.get? s.1 = some ls) (hge : lines.get? e.1 = some le)
    (hnls : '\n' ∉ ls) (hnle : '\n' ∉ le)
    (hnint : ∀ r ∈ (lines.drop (s.1 + 1)).take (e.1 - (s.1 + 1)), '\n' ∉ r) :
    spliceSelection lines s e
      (ls.drop s.2 ++ '\n' ::
        (joinRows ((lines.drop (s.1 + 1)).take (e.1 - (s.1 + 1))) ++
          le.take e.2)) = lines := by
  have hgds : lines.getD s.1 [] = ls := getD_of_getQ lines s.1 ls [] hgs
  have hgde : lines.getD e.1 [] = le := getD_of_getQ lines e.1 le [] hge
  have hsplit : splitNl (ls.drop s.2 ++ '\n' ::
      (joinRows ((lines.drop (s.1 + 1)).take (e.1 - (s.1 + 1))) ++ le.take e.2)) =
      ls.drop s.2 ::
        ((lines.drop (s.1 + 1)).take (e.1 - (s.1 + 1)) ++ [le.take e.2]) := by
    rw [splitNl_append_newline _ _ (fun hm => hnls (List.drop_subset s.2 ls hm)),
      splitNl_joinRows _ _ hnint (fun hm => hnle (List.take_subset e.2 le hm))]
  have hne : ¬ s.1 = e.1 := by omega
  rw [spliceSelection]
  simp only [hsplit, if_neg hne]
  rw [List.headD_cons, hgds, List.take_append_drop, set_getQ_self lines s.1 ls hgs]
  rw [if_pos (by simp [List.length_append])]
  rw [getLastD_cons_concat, hgde, List.take_append_drop,
    set_getQ_self lines e.1 le hge]
  rw [show (ls.drop s.2 ::
      ((lines.drop (s.1 + 1)).take (e.1 - (s.1 + 1)) ++ [le.take e.2])).drop 1
      = (lines.drop (s.1 + 1)).take (e.1 - (s.1 + 1)) ++ [le.take e.2] from rfl,
    List.dropLast_concat]
  exact take_drop_splice lines (s.1 + 1) (e.1 - (s.1 + 1)) e.1 (by omega)

/-- C6 (amended): `modify_selected_text` with the identity transform
returns the buffer unchanged for every span with in-range rows, provided
no row of the buffer is whitespace-only (such rows are removed by the
cleanup pass — see the counterexample) and no row contains a newline
character. -/
theorem c6_identity_transform :
    ∀ (lines : LineBuffer) (p q : Pos),
      (∀ row ∈ lines, keepRow row = true) →
      (∀ row ∈ lines, '\n' ∉ row) →
      p.1 < lines.length → q.1 < lines.length →
      ∃ cur, modify_selected_text lines (some p) (some q) (fun t => t) =
        some (lines, cur) := by
  intro lines p q hkeep hnl hp hq
  have hs1 : (pyMin p q).1 < lines.length := by
    rcases pyMinMax_cases p q with ⟨h1, _⟩ | ⟨h1, _⟩ <;> rw [h1] <;> assumption
  have he1 : (pyMax p q).1 < lines.length := by
    rcases pyMinMax_cases p q with ⟨_, h2⟩ | ⟨_, h2⟩ <;> rw [h2] <;> assumption
  have hlex := pyMin_lex p q
  have hgs := getQ_of_lt lines (pyMin p q).1 [] hs1
  have hge := getQ_of_lt lines (pyMax p q).1 [] he1
  by_cases heq : (pyMin p q).1 = (pyMax p q).1
  · have hle : (pyMin p q).2 ≤ (pyMax p q).2 := by
      rcases hlex with h | ⟨_, h⟩
      · omega
      · exact h
    have hext : extract_selected_text (pyMin p q) (pyMax p q) lines =
        some (((lines.getD (pyMin p q).1 []).take (pyMax p q).2).drop
          (pyMin p q).2) := by
      rw [extract_selected_text, if_pos heq, hgs]
      rfl
    have hsplice := spliceSelection_id_single lines (pyMin p q) (pyMax p q)
      heq hle _ hgs
    refine ⟨recompute_cursor lines (pyMin p q), ?_⟩
    simp only [modify_selected_text]
    rw [hext, Option.map_some']
    rw [hsplice, cleanupRows_eq_self lines hkeep]
  · have hlt : (pyMin p q).1 < (pyMax p q).1 := by
      rcases hlex with h | ⟨h, _⟩
      · exact h
      · omega
    have hext : extract_selected_text (pyMin p q) (pyMax p q) lines =
        some ((lines.getD (pyMin p q).1 []).drop (pyMin p q).2 ++ '\n' ::
          (joinRows ((lines.drop ((pyMin p q).1 + 1)).take
            ((pyMax p q).1 - ((pyMin p q).1 + 1))) ++
          (lines.getD (pyMax p q).1 []).take (pyMax p q).2)) := by
      rw [extract_selected_text, if_neg heq, hgs, hge]
    have hint : ∀ r ∈ (lines.drop ((pyMin p q).1 + 1)).take
        ((pyMax p q).1 - ((pyMin p q).1 + 1)), '\n' ∉ r :=
      fun r hr => hnl r (List.drop_subset _ lines (List.take_subset _ _ hr))
    have hsplice := spliceSelection_id_multi lines (pyMin p q) (pyMax p q) hlt
      _ _ hgs hge (hnl _ (List.get?_mem hgs)) (hnl _ (List.get?_mem hge)) hint
    refine ⟨recompute_cursor lines (pyMin p q), ?_⟩
    simp only [modify_selected_text]
    rw [hext, Option.map_some']
    rw [hsplice, cleanupRows_eq_self lines hkeep]

/-- C6 (witness): identity transform over the two-row span
`(0,1)–(1,1)` of `["ab", "cd"]` returns the buffer unchanged. -/
theorem c6_witness :
    (∀ row ∈ ([['a', 'b'], ['c', 'd']] : LineBuffer), keepRow row = true) ∧
    (∀ row ∈ ([['a', 'b'], ['c', 'd']] : LineBuffer), '\n' ∉ row) ∧
    ((0, 1) : Pos).1 < ([['a', 'b'], ['c', 'd']] : LineBuffer).length ∧
    ((1, 1) : Pos).1 < ([['a', 'b'], ['c', 'd']] : LineBuffer).length ∧
    ∃ cur, modify_selected_text [['a', 'b'], ['c', 'd']] (some (0, 1))
      (some (1, 1)) (fun t => t) = some ([['a', 'b'], ['c', 'd']], cur) :=
  ⟨by decide, by decide, by decide, by decide,
   c6_identity_transform [['a', 'b'], ['c', 'd']] (0, 1) (1, 1)
     (by decide) (by decide) (by decide) (by decide)⟩
